import Mathlib

/-!
Verification of the auth-tui TOTP authenticator (src/main.rs) against its
natural-language specification.

Text is modelled as `List Char` (called `Str` below), so that the byte- and
line-level behavior of the Rust standard library functions used by the
program (`str::lines`, `String::from_utf8`, percent decoding, base32
decoding) can be embedded faithfully and reasoned about by induction.
-/

namespace AuthTui

/-- Text as a list of characters. -/
abbrev Str := List Char

/-- Shorthand turning a Lean string literal into the `Str` model. -/
def str (s : String) : Str := s.data

/-! ## Rust `str::lines` and newline joining

`str::lines` splits at `\n`, removes a `\r` immediately preceding a `\n`,
and treats the final line ending as optional (a trailing `\n` does not
produce a final empty line). -/

/-- Prepend a character onto the first segment of a segment list. -/
def consHead (c : Char) : List Str → List Str
  | [] => [[c]]
  | h :: t => (c :: h) :: t

/-- Split a character list at every newline character; the result is always
nonempty and its segments contain no newline. Models `str::split('\n')`. -/
def splitNL : Str → List Str
  | [] => [[]]
  | c :: rest =>
    if c = '\n' then [] :: splitNL rest else consHead c (splitNL rest)

/-- Remove one carriage return at the end of a segment, if present. Models
the `\r\n` handling of `str::lines` for segments that were followed by a
newline. -/
def stripCR (l : Str) : Str :=
  match l.getLast? with
  | some '\r' => l.dropLast
  | _ => l

/-- The contribution of the final split segment to `str::lines`: dropped
when empty (a trailing newline or an empty input), kept verbatim
otherwise. -/
def lastSegment : Option Str → List Str
  | some [] => []
  | some l => [l]
  | none => []

/-- Model of Rust `str::lines`: all segments but the last are stripped of a
trailing carriage return; a final empty segment (from a trailing newline or
an empty input) is dropped. -/
def rustLines (s : Str) : List Str :=
  let ps := splitNL s
  ps.dropLast.map stripCR ++ lastSegment ps.getLast?

/-- Join lines with a single newline character. Models `[String]::join("\n")`,
used by `save_secrets` (src/main.rs line 51). -/
def joinNL : List Str → Str
  | [] => []
  | [l] => l
  | l :: ls => l ++ '\n' :: joinNL ls

/-! ## Secrets store (src/main.rs lines 41-52, 169-185) -/

/-- The credential-URI scheme prefix `otpauth://` that a stored line must
begin with (src/main.rs line 45). -/
def otpauthScheme : Str := str "otpauth://"

/-- Whether a line begins with the scheme prefix; models
`l.starts_with("otpauth://")`. -/
def isOtpauthLine (l : Str) : Bool := otpauthScheme.isPrefixOf l

/-- Model of `load_secrets` (src/main.rs lines 41-48). The file read is
abstracted as `Option Str`: `none` when the source cannot be read, in which
case `unwrap_or_default` supplies the empty text. The surviving lines are
those beginning with the scheme prefix, in file order. -/
def load_secrets (contents : Option Str) : List Str :=
  (rustLines (contents.getD [])).filter isOtpauthLine

/-- Model of `save_secrets` (src/main.rs lines 50-52): the text written to
the destination is the lines joined by a newline. -/
def save_secrets (secrets : List Str) : Str := joinNL secrets

/-- Model of the Import arm of `main` (src/main.rs lines 169-185): each
incoming line is appended to the existing list unless it is already
contained in it, and the reported count is the number of incoming lines. -/
def importMerge (current incoming : List Str) : List Str × Nat :=
  (incoming.foldl (fun acc s => if s ∈ acc then acc else acc ++ [s]) current,
   incoming.length)

/-! ## Byte-level text utilities -/

/-- Big-endian byte representation of `n` on exactly `len` bytes. -/
def natToBEBytes : Nat → Nat → List Nat
  | 0, _ => []
  | k + 1, n => natToBEBytes k (n / 256) ++ [n % 256]

/-- UTF-8 encoding of one character. -/
def utf8EncodeChar (c : Char) : List Nat :=
  let n := c.toNat
  if n < 0x80 then [n]
  else if n < 0x800 then [0xC0 + n / 64, 0x80 + n % 64]
  else if n < 0x10000 then [0xE0 + n / 4096, 0x80 + n / 64 % 64, 0x80 + n % 64]
  else [0xF0 + n / 262144, 0x80 + n / 4096 % 64, 0x80 + n / 64 % 64, 0x80 + n % 64]

/-- UTF-8 encoding of a character list. -/
def utf8Encode (s : Str) : List Nat :=
  s.foldr (fun c acc => utf8EncodeChar c ++ acc) []

/-- Strict UTF-8 decoding of a byte list, rejecting overlong forms,
surrogate code points and out-of-range values. Models Rust
`String::from_utf8` succeeding or failing. -/
def utf8Decode : List Nat → Option Str
  | [] => some []
  | b :: rest =>
    if b < 0x80 then
      (utf8Decode rest).map (fun cs => Char.ofNat b :: cs)
    else if b < 0xC2 then none
    else if b < 0xE0 then
      match rest with
      | b1 :: rest' =>
        if 0x80 ≤ b1 ∧ b1 < 0xC0 then
          (utf8Decode rest').map (fun cs => Char.ofNat ((b - 0xC0) * 64 + (b1 - 0x80)) :: cs)
        else none
      | _ => none
    else if b < 0xF0 then
      match rest with
      | b1 :: b2 :: rest' =>
        if 0x80 ≤ b1 ∧ b1 < 0xC0 ∧ 0x80 ≤ b2 ∧ b2 < 0xC0 then
          let n := (b - 0xE0) * 4096 + (b1 - 0x80) * 64 + (b2 - 0x80)
          if 0x800 ≤ n ∧ ¬ (0xD800 ≤ n ∧ n < 0xE000) then
            (utf8Decode rest').map (fun cs => Char.ofNat n :: cs)
          else none
        else none
      | _ => none
    else if b < 0xF5 then
      match rest with
      | b1 :: b2 :: b3 :: rest' =>
        if 0x80 ≤ b1 ∧ b1 < 0xC0 ∧ 0x80 ≤ b2 ∧ b2 < 0xC0 ∧ 0x80 ≤ b3 ∧ b3 < 0xC0 then
          let n := (b - 0xF0) * 262144 + (b1 - 0x80) * 4096 + (b2 - 0x80) * 64 + (b3 - 0x80)
          if 0x10000 ≤ n ∧ n ≤ 0x10FFFF then
            (utf8Decode rest').map (fun cs => Char.ofNat n :: cs)
          else none
        else none
      | _ => none
    else none

/-- Value of an ASCII hex digit byte, as accepted by the percent decoder. -/
def hexVal (b : Nat) : Option Nat :=
  if 48 ≤ b ∧ b ≤ 57 then some (b - 48)
  else if 65 ≤ b ∧ b ≤ 70 then some (b - 55)
  else if 97 ≤ b ∧ b ≤ 102 then some (b - 87)
  else none

/-- Percent decoding over bytes: `%` followed by two hex digits becomes one
byte; a `%` not followed by two hex digits is kept literally and scanning
resumes right after it. Models `urlencoding::decode_binary`. -/
def pctDecodeAux : Nat → List Nat → List Nat
  | 0, s => s
  | _ + 1, [] => []
  | fuel + 1, b :: rest =>
    if b = 37 then
      match rest with
      | h1 :: h2 :: rest' =>
        match hexVal h1, hexVal h2 with
        | some x, some y => (16 * x + y) :: pctDecodeAux fuel rest'
        | _, _ => 37 :: pctDecodeAux fuel rest
      | _ => 37 :: pctDecodeAux fuel rest
    else b :: pctDecodeAux fuel rest

/-- Percent decoding of a whole byte list; the fuel, one unit per input
byte, is enough because every step consumes at least one byte. -/
def pctDecode (bs : List Nat) : List Nat := pctDecodeAux bs.length bs

/-- Model of `urlencoding::decode`: percent-decode the UTF-8 bytes of the
input and require the result to be valid UTF-8, otherwise fail. -/
def urlencodingDecode (s : Str) : Option Str :=
  utf8Decode (pctDecode (utf8Encode s))

/-- ASCII upper-casing, character by character. Models Rust
`str::to_uppercase` on the inputs relevant here; the Unicode-specific
multi-character upper-casings differ only on non-ASCII characters. -/
def asciiUpper (s : Str) : Str :=
  s.map (fun c => if 'a' ≤ c ∧ c ≤ 'z' then Char.ofNat (c.toNat - 32) else c)

/-! ## Base32 without padding (`data_encoding::BASE32_NOPAD`) -/

/-- Value of one character of the RFC 4648 base32 alphabet `A..Z 2..7`. -/
def b32val (c : Char) : Option Nat :=
  let n := c.toNat
  if 65 ≤ n ∧ n ≤ 90 then some (n - 65)
  else if 50 ≤ n ∧ n ≤ 55 then some (n - 24)
  else none

/-- Model of `BASE32_NOPAD.decode`: every character must belong to the
alphabet, the length must leave a remainder in `{0, 2, 4, 5, 7}` modulo 8,
and the trailing bits beyond the produced bytes must be zero (canonical
encoding check performed by `data_encoding`). -/
def b32decode (s : Str) : Option (List Nat) :=
  let r := s.length % 8
  if r = 1 ∨ r = 3 ∨ r = 6 then none
  else
    match s.mapM b32val with
    | none => none
    | some vals =>
      let total := vals.foldl (fun a v => a * 32 + v) 0
      let nbytes := 5 * s.length / 8
      let extra := 5 * s.length - 8 * nbytes
      if total % 2 ^ extra = 0 then some (natToBEBytes nbytes (total / 2 ^ extra))
      else none

/-! ## Rust unsigned integer parsing (`str::parse::<u32>` / `::<u64>`) -/

/-- Decimal value of a nonempty all-digit character list. -/
def decDigitsVal : Str → Option Nat
  | [] => none
  | l =>
    match l.mapM (fun c => if '0' ≤ c ∧ c ≤ '9' then some (c.toNat - 48) else none) with
    | none => none
    | some ds => some (ds.foldl (fun a d => a * 10 + d) 0)

/-- Model of Rust `str::parse` for an unsigned integer type whose values
are below `limit`: an optional leading `+`, then one or more ASCII digits,
rejecting values that overflow the type. -/
def parseRustNum (limit : Nat) (s : Str) : Option Nat :=
  let s' := match s with
    | '+' :: rest => rest
    | _ => s
  match decDigitsVal s' with
  | none => none
  | some v => if v < limit then some v else none

/-! ## Descriptor parsing (src/main.rs lines 54-108) -/

/-- Modelled from the spec: the program delegates URL parsing to the
external WHATWG `url` crate, which is outside this repository. A
`ParsedUrl` captures the successful outcome of `Url::parse` as consumed by
`parse_totp`: the scheme, the serialized (still percent-encoded, ASCII)
path returned by `Url::path()`, and the percent-decoded key/value pairs
returned by `Url::query_pairs()`. A failed `Url::parse` is the `none` case
of the `Option ParsedUrl` argument of `parse_totp` below. -/
structure ParsedUrl where
  scheme : Str
  path : Str
  queryPairs : List (Str × Str)
deriving DecidableEq

/-- The three hash algorithm choices of `totp_rs::Algorithm`. -/
inductive Alg where
  | SHA1
  | SHA256
  | SHA512
deriving DecidableEq

/-- The fields of `totp_rs::TOTP` as constructed by `TOTP::new_unchecked`
in src/main.rs lines 97-105 (`skew` is the literal `1` passed there). -/
structure TOTP where
  algorithm : Alg
  digits : Nat
  skew : Nat
  step : Nat
  secret : List Nat
  issuer : Option Str
  account_name : Str
deriving DecidableEq

/-- Repeatedly strip a leading `/totp/` from the path, with fuel making the
recursion structural. Models `str::trim_start_matches("/totp/")`, which
removes the prefix as many times as it matches. -/
def trimTotpAux : Nat → Str → Str
  | 0, s => s
  | fuel + 1, s =>
    if (str "/totp/").isPrefixOf s then trimTotpAux fuel (s.drop 6) else s

/-- Strip every leading `/totp/` occurrence (src/main.rs line 59). -/
def trimTotp (s : Str) : Str := trimTotpAux s.length s

/-- Strip every leading `/` (src/main.rs line 59,
`trim_start_matches('/')`). -/
def trimSlash : Str → Str
  | '/' :: rest => trimSlash rest
  | s => s

/-- Split a label at its first colon: models `label.find(':')` followed by
slicing into `label[..pos]` and `label[pos + 1..]` (src/main.rs line 62). -/
def splitAtColon : Str → Option (Str × Str)
  | [] => none
  | c :: rest =>
    if c = ':' then some ([], rest)
    else (splitAtColon rest).map (fun p => (c :: p.1, p.2))

/-- The `(issuer_from_label, account)` pair read off a label
(src/main.rs lines 62-66): the parts around the first colon when one
exists, otherwise no issuer and the whole label as account. -/
def labelParts (label : Str) : Option Str × Str :=
  match splitAtColon label with
  | some p => (some p.1, p.2)
  | none => (none, label)

/-- Mutable state of the query-parameter loop of `parse_totp`
(src/main.rs lines 69-90). -/
structure ScanState where
  secret : Option Str
  issuer : Option Str
  algorithm : Alg
  digits : Nat
  period : Nat
deriving DecidableEq

/-- Algorithm selected by an `algorithm` query value (src/main.rs
lines 80-84): upper-cased match against SHA256 and SHA512, anything else
falling back to SHA1. -/
def algoOfValue (v : Str) : Alg :=
  if asciiUpper v = str "SHA256" then .SHA256
  else if asciiUpper v = str "SHA512" then .SHA512
  else .SHA1

/-- One iteration of the query-parameter loop (src/main.rs lines 75-90). -/
def scanStep (st : ScanState) (kv : Str × Str) : ScanState :=
  if kv.1 = str "secret" then { st with secret := some kv.2 }
  else if kv.1 = str "issuer" then { st with issuer := some kv.2 }
  else if kv.1 = str "algorithm" then { st with algorithm := algoOfValue kv.2 }
  else if kv.1 = str "digits" then { st with digits := (parseRustNum (2 ^ 32) kv.2).getD 6 }
  else if kv.1 = str "period" then { st with period := (parseRustNum (2 ^ 64) kv.2).getD 30 }
  else st

/-- Model of `parse_totp` (src/main.rs lines 54-108) over the outcome of
the external URL parser. Returns `none` exactly where the source returns
`None` via the `?` operators: URL parse failure, label percent-decoding
failure, missing `secret`, or base32 decoding failure. -/
def parse_totp (url? : Option ParsedUrl) : Option (Str × Str × TOTP) :=
  match url? with
  | none => none
  | some url =>
    match urlencodingDecode (trimSlash (trimTotp url.path)) with
    | none => none
    | some label =>
      let parts := labelParts label
      let st0 : ScanState :=
        { secret := none, issuer := parts.1, algorithm := .SHA1
          digits := 6, period := 30 }
      let st := url.queryPairs.foldl scanStep st0
      match st.secret with
      | none => none
      | some sec =>
        match b32decode (asciiUpper sec) with
        | none => none
        | some secret_bytes =>
          let totp : TOTP :=
            { algorithm := st.algorithm, digits := st.digits, skew := 1
              step := st.period, secret := secret_bytes
              issuer := some (st.issuer.getD []), account_name := parts.2 }
          some (parts.2, st.issuer.getD [], totp)

/-- Value of the last occurrence of query key `k`, if any. -/
def lastParam (k : Str) : List (Str × Str) → Option Str
  | [] => none
  | kv :: rest =>
    match lastParam k rest with
    | some v => some v
    | none => if kv.1 = k then some kv.2 else none

/-- Combinator describing one field after the query scan: the image under
`f` of the last relevant query value when one exists, the base value
otherwise. -/
def lastOr (base : α) (f : Str → α) : Option Str → α
  | some v => f v
  | none => base

/-- The issuer a URL's label contributes: the part of the successfully
decoded label before its first colon, when both exist. -/
def labelIssuerOf (u : ParsedUrl) : Option Str :=
  (urlencodingDecode (trimSlash (trimTotp u.path))).bind
    (fun label => (labelParts label).1)

/-- The issuer `parse_totp` finally reports for a decoded label and query
pair list: the last `issuer` query value when present, else the
label-derived issuer, else the empty string. -/
def issuerRes (label : Str) (pairs : List (Str × Str)) : Str :=
  lastOr (((labelParts label).1).getD []) id (lastParam (str "issuer") pairs)

/-! ## Remaining seconds (src/main.rs lines 118-124) -/

/-- Model of `seconds_remaining`, with the clock read abstracted into the
parameter `time` (the current unix time in seconds). -/
def seconds_remaining (time : Nat) : Nat := 30 - time % 30

/-! ## Hash functions and HMAC

Modelled from the spec: code generation is delegated to the external
`totp_rs` crate (with the `hmac`/`sha` crates underneath), outside this
repository. The spec, section 4.2, fixes its semantics: an HMAC over the
8-byte big-endian counter, dynamically truncated per RFC 4226 and reduced
modulo `10^digits`. The SHA family and HMAC are implemented here in full
so that the reference vector can be evaluated. -/

/-- Left rotation of a `bits`-wide word. -/
def rotl (bits k n : Nat) : Nat := ((n <<< k) % 2 ^ bits) ||| (n >>> (bits - k))

/-- Right rotation of a `bits`-wide word. -/
def rotr (bits k n : Nat) : Nat := (n >>> k) ||| ((n <<< (bits - k)) % 2 ^ bits)

/-- Merkle–Damgard padding: a `0x80` byte, zeros, then the bit length on
`lenField` bytes, reaching a multiple of `blockSize` bytes. -/
def mdPad (lenField blockSize : Nat) (msg : List Nat) : List Nat :=
  let z := (2 * blockSize - lenField - 1 - msg.length % blockSize) % blockSize
  msg ++ 0x80 :: List.replicate z 0 ++ natToBEBytes lenField (8 * msg.length)

def chunksAux : Nat → Nat → List Nat → List (List Nat)
  | 0, _, _ => []
  | _ + 1, _, [] => []
  | fuel + 1, k, l => l.take k :: chunksAux fuel k (l.drop k)

/-- Split a byte list into chunks of `k` bytes. -/
def chunks (k : Nat) (l : List Nat) : List (List Nat) := chunksAux l.length k l

/-- Big-endian value of a byte (or word) list. -/
def beVal (base : Nat) (l : List Nat) : Nat := l.foldl (fun a b => a * base + b) 0

/-- Big-endian 32-bit words of a byte list. -/
def beWords32 (bytes : List Nat) : List Nat := (chunks 4 bytes).map (beVal 256)

/-! ### SHA-1 -/

def sha1F (i b c d : Nat) : Nat :=
  if i < 20 then (b &&& c) ||| ((b ^^^ 0xFFFFFFFF) &&& d)
  else if i < 40 then b ^^^ c ^^^ d
  else if i < 60 then (b &&& c) ||| (b &&& d) ||| (c &&& d)
  else b ^^^ c ^^^ d

def sha1K (i : Nat) : Nat :=
  if i < 20 then 0x5A827999
  else if i < 40 then 0x6ED9EBA1
  else if i < 60 then 0x8F1BBCDC
  else 0xCA62C1D6

/-- Message-schedule extension, carried as a reversed word list so that
`w[t-3]` is at position 2, `w[t-8]` at 7, `w[t-14]` at 13, `w[t-16]`
at 15. -/
def sha1ExtAux : Nat → List Nat → List Nat
  | 0, wr => wr
  | fuel + 1, wr =>
    let nw := rotl 32 1 (wr.getD 2 0 ^^^ wr.getD 7 0 ^^^ wr.getD 13 0 ^^^ wr.getD 15 0)
    sha1ExtAux fuel (nw :: wr)

/-- The 80 schedule words of one SHA-1 block. -/
def sha1Schedule (block : List Nat) : List Nat :=
  (sha1ExtAux 64 (beWords32 block).reverse).reverse

def sha1Round (st : Nat × Nat × Nat × Nat × Nat) (iw : Nat × Nat) :
    Nat × Nat × Nat × Nat × Nat :=
  let (a, b, c, d, e) := st
  let (i, w) := iw
  let temp := (rotl 32 5 a + sha1F i b c d + e + sha1K i + w) % 2 ^ 32
  (temp, a, rotl 32 30 b, c, d)

def sha1Compress (h : Nat × Nat × Nat × Nat × Nat) (block : List Nat) :
    Nat × Nat × Nat × Nat × Nat :=
  let (a, b, c, d, e) := (sha1Schedule block).enum.foldl sha1Round h
  ((h.1 + a) % 2 ^ 32, (h.2.1 + b) % 2 ^ 32, (h.2.2.1 + c) % 2 ^ 32,
   (h.2.2.2.1 + d) % 2 ^ 32, (h.2.2.2.2 + e) % 2 ^ 32)

/-- SHA-1 of a byte list, as a 20-byte digest. -/
def sha1 (msg : List Nat) : List Nat :=
  let h := (chunks 64 (mdPad 8 64 msg)).foldl sha1Compress
    (0x67452301, 0xEFCDAB89, 0x98BADCFE, 0x10325476, 0xC3D2E1F0)
  natToBEBytes 4 h.1 ++ natToBEBytes 4 h.2.1 ++ natToBEBytes 4 h.2.2.1 ++
    natToBEBytes 4 h.2.2.2.1 ++ natToBEBytes 4 h.2.2.2.2

/-! ### SHA-256 and SHA-512

The round constants are the fractional parts of the cube roots of the
first primes and the initial state the fractional parts of their square
roots, computed here rather than transcribed. -/

/-- The first 80 primes, in order. -/
def firstPrimes : List Nat :=
  [2, 3, 5, 7, 11, 13, 17, 19, 23, 29, 31, 37, 41, 43, 47, 53, 59, 61, 67,
   71, 73, 79, 83, 89, 97, 101, 103, 107, 109, 113, 127, 131, 137, 139,
   149, 151, 157, 163, 167, 173, 179, 181, 191, 193, 197, 199, 211, 223,
   227, 229, 233, 239, 241, 251, 257, 263, 269, 271, 277, 281, 283, 293,
   307, 311, 313, 317, 331, 337, 347, 349, 353, 359, 367, 373, 379, 383,
   389, 397, 401, 409]

def icbrtAux : Nat → Nat → Nat → Nat
  | 0, _, acc => acc
  | fuel + 1, n, acc =>
    let c := acc + 2 ^ fuel
    if c ^ 3 ≤ n then icbrtAux fuel n c else icbrtAux fuel n acc

/-- Integer cube root by binary search over `bits` bits. -/
def icbrt (bits n : Nat) : Nat := icbrtAux bits n 0

/-- First `bits` fractional bits of the cube root of `p`. -/
def cbrtFrac (bits p : Nat) : Nat := icbrt (bits + 10) (p * 2 ^ (3 * bits)) % 2 ^ bits

/-- First `bits` fractional bits of the square root of `p`. -/
def sqrtFrac (bits p : Nat) : Nat := Nat.sqrt (p * 2 ^ (2 * bits)) % 2 ^ bits

/-- Parameters distinguishing SHA-256 from SHA-512. -/
structure Sha2Params where
  bits : Nat
  blockSize : Nat
  lenField : Nat
  rounds : Nat
  bigS0 : Nat × Nat × Nat
  bigS1 : Nat × Nat × Nat
  smallS0 : Nat × Nat × Nat
  smallS1 : Nat × Nat × Nat

def sha256Params : Sha2Params :=
  { bits := 32, blockSize := 64, lenField := 8, rounds := 64
    bigS0 := (2, 13, 22), bigS1 := (6, 11, 25)
    smallS0 := (7, 18, 3), smallS1 := (17, 19, 10) }

def sha512Params : Sha2Params :=
  { bits := 64, blockSize := 128, lenField := 16, rounds := 80
    bigS0 := (28, 34, 39), bigS1 := (14, 18, 41)
    smallS0 := (1, 8, 7), smallS1 := (19, 61, 6) }

def sha2RoundK (P : Sha2Params) : List Nat :=
  (firstPrimes.take P.rounds).map (cbrtFrac P.bits)

def sha2Init (P : Sha2Params) : List Nat :=
  (firstPrimes.take 8).map (sqrtFrac P.bits)

/-- Big sigma: three right rotations, xored. -/
def bigSig (bits : Nat) (r : Nat × Nat × Nat) (n : Nat) : Nat :=
  rotr bits r.1 n ^^^ rotr bits r.2.1 n ^^^ rotr bits r.2.2 n

/-- Small sigma: two right rotations and a right shift, xored. -/
def smallSig (bits : Nat) (r : Nat × Nat × Nat) (n : Nat) : Nat :=
  rotr bits r.1 n ^^^ rotr bits r.2.1 n ^^^ (n >>> r.2.2)

/-- SHA-2 schedule extension over a reversed word list: `w[t-2]` sits at
position 1, `w[t-7]` at 6, `w[t-15]` at 14, `w[t-16]` at 15. -/
def sha2ExtAux (P : Sha2Params) : Nat → List Nat → List Nat
  | 0, wr => wr
  | fuel + 1, wr =>
    let s0 := smallSig P.bits P.smallS0 (wr.getD 14 0)
    let s1 := smallSig P.bits P.smallS1 (wr.getD 1 0)
    let nw := (s1 + wr.getD 6 0 + s0 + wr.getD 15 0) % 2 ^ P.bits
    sha2ExtAux P fuel (nw :: wr)

def sha2Schedule (P : Sha2Params) (block : List Nat) : List Nat :=
  let ws := (chunks (P.bits / 8) block).map (beVal 256)
  (sha2ExtAux P (P.rounds - 16) ws.reverse).reverse

def sha2Round (P : Sha2Params)
    (st : Nat × Nat × Nat × Nat × Nat × Nat × Nat × Nat) (kw : Nat × Nat) :
    Nat × Nat × Nat × Nat × Nat × Nat × Nat × Nat :=
  let (a, b, c, d, e, f, g, h) := st
  let (k, w) := kw
  let m := 2 ^ P.bits
  let ch := (e &&& f) ^^^ ((e ^^^ (m - 1)) &&& g)
  let maj := (a &&& b) ^^^ (a &&& c) ^^^ (b &&& c)
  let t1 := (h + bigSig P.bits P.bigS1 e + ch + k + w) % m
  let t2 := (bigSig P.bits P.bigS0 a + maj) % m
  ((t1 + t2) % m, a, b, c, (d + t1) % m, e, f, g)

def sha2Compress (P : Sha2Params) (hs : List Nat) (block : List Nat) : List Nat :=
  let st0 := (hs.getD 0 0, hs.getD 1 0, hs.getD 2 0, hs.getD 3 0,
              hs.getD 4 0, hs.getD 5 0, hs.getD 6 0, hs.getD 7 0)
  let ks := (sha2RoundK P).zip (sha2Schedule P block)
  let (a, b, c, d, e, f, g, h) := ks.foldl (sha2Round P) st0
  (hs.zip [a, b, c, d, e, f, g, h]).map (fun p => (p.1 + p.2) % 2 ^ P.bits)

/-- SHA-2 (256 or 512 depending on the parameters) of a byte list. -/
def sha2 (P : Sha2Params) (msg : List Nat) : List Nat :=
  let hh := (chunks P.blockSize (mdPad P.lenField P.blockSize msg)).foldl
    (sha2Compress P) (sha2Init P)
  hh.foldr (fun w acc => natToBEBytes (P.bits / 8) w ++ acc) []

def sha256 (msg : List Nat) : List Nat := sha2 sha256Params msg

def sha512 (msg : List Nat) : List Nat := sha2 sha512Params msg

/-! ### HMAC and TOTP generation -/

/-- Digest function of each algorithm choice. -/
def hashBytes : Alg → List Nat → List Nat
  | .SHA1 => sha1
  | .SHA256 => sha256
  | .SHA512 => sha512

/-- Internal block size of each algorithm choice. -/
def hashBlockSize : Alg → Nat
  | .SHA1 => 64
  | .SHA256 => 64
  | .SHA512 => 128

/-- HMAC (RFC 2104): the key, hashed first if longer than a block, is
zero-padded to a block, xored with the inner and outer pads, and the two
nested digests are taken. -/
def hmac (alg : Alg) (key msg : List Nat) : List Nat :=
  let bs := hashBlockSize alg
  let k0 := if bs < key.length then hashBytes alg key else key
  let kp := k0 ++ List.replicate (bs - k0.length) 0
  hashBytes alg ((kp.map (fun b => b ^^^ 0x5C)) ++
    hashBytes alg ((kp.map (fun b => b ^^^ 0x36)) ++ msg))

def decDigitsAux : Nat → Nat → Str
  | 0, _ => []
  | fuel + 1, n =>
    if n < 10 then [Char.ofNat (48 + n)]
    else decDigitsAux fuel (n / 10) ++ [Char.ofNat (48 + n % 10)]

/-- Decimal rendering of a natural number. -/
def natToDecStr (n : Nat) : Str := decDigitsAux (n + 1) n

/-- Left-pad with zeros to `width` characters, the formatting of
`format!` with a zero-fill width specifier. -/
def zeroPad (width : Nat) (s : Str) : Str :=
  List.replicate (width - s.length) '0' ++ s

/-- Modelled from the spec: `totp_rs::TOTP::generate` (external crate),
with the semantics fixed by spec section 4.2 — HMAC over the 8-byte
big-endian counter `time / period`, dynamic truncation (offset from the
low 4 bits of the last byte, 4 bytes read big-endian, top bit masked),
reduction modulo `10^digits`, zero-padded decimal rendering. -/
def TOTP.generate (t : TOTP) (time : Nat) : Str :=
  let counter := time / t.step
  let mac := hmac t.algorithm t.secret (natToBEBytes 8 counter)
  let offset := (mac.getLast?.getD 0) % 16
  let value := beVal 256 ((mac.drop offset).take 4) % 2 ^ 31
  zeroPad t.digits (natToDecStr (value % 10 ^ t.digits))

/-- Model of `generate_code` (src/main.rs lines 110-116), with the clock
read abstracted into the `time` parameter. -/
def generate_code (t : TOTP) (time : Nat) : Str := t.generate time

/-! ## Live display loop (src/main.rs lines 126-162) -/

/-- Cursor-up distance emitted by `display` (src/main.rs lines 128-130):
the escape `ESC[<n>A` is printed only when `line_count > 0`. -/
def display_cursorUp (line_count : Nat) : Nat :=
  if line_count > 0 then line_count else 0

/-- The fixed per-frame line count of `run_tui` (src/main.rs line 154):
two header lines plus one per stored line. -/
def run_tui_lineCount (secrets : List Str) : Nat := 2 + secrets.length

/-- The `line_count` argument `run_tui` passes to `display` on a frame
(src/main.rs line 158): zero on the first frame, the fixed line count on
every later frame. -/
def run_tui_frameArg (secrets : List Str) (first : Bool) : Nat :=
  if first then 0 else run_tui_lineCount secrets

/-- Number of data rows a frame actually renders (src/main.rs
lines 136-141): one per stored line whose parse succeeds, under a given
URL-parser outcome `up`. -/
def display_rowCount (up : Str → Option ParsedUrl) (secrets : List Str) : Nat :=
  (secrets.filter (fun u => (parse_totp (up u)).isSome)).length

/-- Map a function over every element of a list except the last one. The
shape `rustLines` takes on a newline-join of newline-free lines. -/
def mapExceptLast (f : α → α) : List α → List α
  | [] => []
  | [x] => [x]
  | x :: y :: xs => f x :: mapExceptLast f (y :: xs)

/-- Amended import specification: scanning the incoming lines in order,
keep each line that is present neither in the current store nor among the
earlier kept incoming lines. -/
def newLines (seen : List Str) : List Str → List Str
  | [] => []
  | s :: rest => if s ∈ seen then newLines seen rest else s :: newLines (seen ++ [s]) rest

/-! ## Theorems -/

/-- Claim C5: `seconds_remaining` equals `30 - (t mod 30)`, always lies in
`[1, 30]` whatever any descriptor's period is (the function takes no
period at all), and from one second to the next decreases by exactly 1,
wrapping from 1 back to 30. -/
theorem seconds_remaining_window (t : Nat) :
    seconds_remaining t = 30 - t % 30 ∧
    1 ≤ seconds_remaining t ∧ seconds_remaining t ≤ 30 ∧
    seconds_remaining (t + 1) =
      (if seconds_remaining t = 1 then 30 else seconds_remaining t - 1) := by
  unfold seconds_remaining
  refine ⟨rfl, by omega, by omega, ?_⟩
  split <;> omega

/-- Claim C6: loading returns exactly the lines of the source that begin
with `otpauth://`, in file order (it is the prefix-filter of the source's
lines, a sublist of them, each retained line carrying the prefix), and an
unreadable source loads as the empty sequence. -/
theorem load_secrets_lines (text : Str) :
    load_secrets none = [] ∧
    load_secrets (some text) = (rustLines text).filter isOtpauthLine ∧
    (load_secrets (some text)).Sublist (rustLines text) ∧
    ∀ l ∈ load_secrets (some text), isOtpauthLine l = true := by
  refine ⟨rfl, rfl, List.filter_sublist _, ?_⟩
  intro l hl
  exact List.of_mem_filter hl

/-- Witness for `load_secrets_lines` at a concrete two-line source whose
second line lacks the scheme prefix. -/
theorem load_secrets_lines_witness :
    isOtpauthLine (str "otpauth://x") = true :=
  (load_secrets_lines (str "otpauth://x\nnote")).2.2.2 (str "otpauth://x") (by decide)

/-- Claim C3 as stated is false: the import loop deduplicates against the
growing merged list, so a line occurring twice in the incoming source is
appended only once even when it is absent from the current store, whereas
the claimed merge `current ++ filter (not in current) incoming` would keep
both occurrences. -/
theorem importMerge_filter_cex :
    (importMerge [] [str "otpauth://a", str "otpauth://a"]).1 ≠
      [] ++ List.filter (fun s => decide (s ∉ ([] : List Str)))
        [str "otpauth://a", str "otpauth://a"] := by decide

/-- Claim C3 amended: the merged store is `current` followed by each
incoming line, in incoming order, that is present neither in `current` nor
among the earlier kept incoming lines; the reported count is the number of
incoming lines, duplicates included. In particular the spec's scenario
`[A, B]` import `[B, C, D]` gives `[A, B, C, D]` with reported count 3. -/
theorem importMerge_spec :
    (∀ current incoming : List Str,
      importMerge current incoming =
        (current ++ newLines current incoming, incoming.length)) ∧
    importMerge [str "otpauth://a", str "otpauth://b"]
        [str "otpauth://b", str "otpauth://c", str "otpauth://d"] =
      ([str "otpauth://a", str "otpauth://b", str "otpauth://c", str "otpauth://d"], 3) := by
  constructor
  · intro current incoming
    unfold importMerge
    simp only [Prod.mk.injEq, and_true]
    induction incoming generalizing current with
    | nil => simp [newLines]
    | cons s rest ih =>
      by_cases h : s ∈ current
      · simpa [List.foldl_cons, h, newLines] using ih current
      · simpa [List.foldl_cons, h, newLines, List.append_assoc] using ih (current ++ [s])
  · decide

/-- Claim C8: the cursor-up distance of a redraw is zero on the first
frame and exactly `2 + n` on every later frame, where `n` is the total
stored line count — independent of how many lines parse. At the spec's
scenario (three stored lines, one unparsable) the frame renders 2 data
rows while the redraw distance is 5. -/
theorem run_tui_cursor_up :
    (∀ secrets : List Str, display_cursorUp (run_tui_frameArg secrets true) = 0) ∧
    (∀ secrets : List Str,
      display_cursorUp (run_tui_frameArg secrets false) = 2 + secrets.length) ∧
    display_rowCount
      (fun s => if s = str "otpauth://bad" then none
        else some ⟨str "otpauth", str "/totp/A", [(str "secret", str "JBSWY3DPEHPK3PXP")]⟩)
      [str "otpauth://a", str "otpauth://b", str "otpauth://bad"] = 2 ∧
    display_cursorUp
      (run_tui_frameArg [str "otpauth://a", str "otpauth://b", str "otpauth://bad"] false) = 5 := by
  refine ⟨fun _ => rfl, fun secrets => ?_, by decide, by decide⟩
  simp [display_cursorUp, run_tui_frameArg, run_tui_lineCount]

/-- The generated code depends only on the algorithm, digit count, step
and secret of a descriptor: the skew, issuer and account fields are never
read by `TOTP.generate`. -/
theorem generate_fields (alg : Alg) (dig stp : Nat) (sec : List Nat) (t : TOTP)
    (time : Nat) (h1 : t.algorithm = alg) (h2 : t.digits = dig)
    (h3 : t.step = stp) (h4 : t.secret = sec) :
    t.generate time = TOTP.generate ⟨alg, dig, 1, stp, sec, none, []⟩ time := by
  obtain ⟨a, b, c, d, e, f, g⟩ := t
  subst h1 h2 h3 h4
  rfl

set_option maxHeartbeats 4000000 in
set_option maxRecDepth 100000 in
/-- Claim C1: any descriptor with algorithm SHA1, 8 digits, period 30 and
the secret whose base32 text is the encoding of the ASCII bytes
`12345678901234567890` generates, at unix time 59, exactly the RFC 6238
reference code `94287082`. -/
theorem generate_rfc6238_vector :
    ∀ d : TOTP, d.algorithm = Alg.SHA1 → d.digits = 8 → d.step = 30 →
      b32decode (str "GEZDGNBVGY3TQOJQGEZDGNBVGY3TQOJQ") = some d.secret →
      d.generate 59 = str "94287082" := by
  intro d halg hdig hstep hsec
  have h1 : b32decode (str "GEZDGNBVGY3TQOJQGEZDGNBVGY3TQOJQ")
      = some ((str "12345678901234567890").map Char.toNat) := by decide
  rw [h1] at hsec
  injection hsec with hsec
  rw [generate_fields Alg.SHA1 8 30 ((str "12345678901234567890").map Char.toNat)
    d 59 halg hdig hstep hsec.symm]
  decide

/-! ### Line structure lemmas (for the load/save round trip) -/

theorem splitNL_ne_nil (s : Str) : splitNL s ≠ [] := by
  induction s with
  | nil => simp [splitNL]
  | cons c rest ih =>
    simp only [splitNL]
    split
    · simp
    · cases h : splitNL rest <;> simp [consHead]

theorem mem_splitNL_no_nl (s : Str) : ∀ p ∈ splitNL s, '\n' ∉ p := by
  induction s with
  | nil =>
    intro p hp
    simp only [splitNL, List.mem_singleton] at hp
    subst hp
    simp
  | cons c rest ih =>
    intro p hp
    simp only [splitNL] at hp
    by_cases hc : c = '\n'
    · rw [if_pos hc] at hp
      rcases List.mem_cons.mp hp with h | h
      · subst h; simp
      · exact ih p h
    · rw [if_neg hc] at hp
      cases hsp : splitNL rest with
      | nil => exact absurd hsp (splitNL_ne_nil rest)
      | cons hd tl =>
        rw [hsp] at hp
        simp only [consHead] at hp
        rcases List.mem_cons.mp hp with h | h
        · subst h
          intro hmem
          rcases List.mem_cons.mp hmem with h' | h'
          · exact hc h'.symm
          · exact ih hd (hsp ▸ List.mem_cons_self hd tl) h'
        · exact ih p (hsp ▸ List.mem_cons_of_mem hd h)

theorem splitNL_no_nl (l : Str) (h : '\n' ∉ l) : splitNL l = [l] := by
  induction l with
  | nil => rfl
  | cons c l' ih =>
    have hc : c ≠ '\n' := fun hh => h (hh ▸ List.mem_cons_self c l')
    have h' : '\n' ∉ l' := fun hh => h (List.mem_cons_of_mem c hh)
    simp only [splitNL, if_neg hc, ih h', consHead]

theorem splitNL_append (l t : Str) (h : '\n' ∉ l) :
    splitNL (l ++ '\n' :: t) = l :: splitNL t := by
  induction l with
  | nil => simp [splitNL]
  | cons c l' ih =>
    have hc : c ≠ '\n' := fun hh => h (hh ▸ List.mem_cons_self c l')
    have h' : '\n' ∉ l' := fun hh => h (List.mem_cons_of_mem c hh)
    rw [List.cons_append, splitNL, if_neg hc, ih h', consHead]

theorem lastSegment_some_cons (x : Char) (xs : Str) :
    lastSegment (some (x :: xs)) = [x :: xs] := rfl

theorem mem_lastSegment (o : Option Str) (l : Str) (h : l ∈ lastSegment o) :
    o = some l := by
  match o with
  | none => exact absurd h (List.not_mem_nil l)
  | some [] => exact absurd h (List.not_mem_nil l)
  | some (x :: xs) =>
    rw [List.mem_singleton.mp h]

theorem stripCR_of_no_cr (l : Str) (h : '\r' ∉ l) : stripCR l = l := by
  unfold stripCR
  split
  · next heq => exact absurd (List.mem_of_mem_getLast? heq) h
  · rfl

theorem no_nl_stripCR (l : Str) (h : '\n' ∉ l) : '\n' ∉ stripCR l := by
  unfold stripCR
  split
  · exact fun hm => h ((List.dropLast_sublist l).subset hm)
  · exact h

theorem ne_nil_of_isOtpauth (l : Str) (h : isOtpauthLine l = true) : l ≠ [] := by
  intro he
  subst he
  exact absurd h (by decide)

theorem isOtpauth_stripCR (l : Str) (h : isOtpauthLine l = true) :
    isOtpauthLine (stripCR l) = true := by
  obtain ⟨t, ht⟩ := (List.isPrefixOf_iff_prefix.mp h)
  unfold stripCR
  split
  · next heq =>
    cases t with
    | nil =>
      rw [← ht, List.append_nil] at heq
      exact absurd heq (by decide)
    | cons x xs =>
      rw [← ht, List.dropLast_append_cons]
      exact List.isPrefixOf_iff_prefix.mpr (List.prefix_append _ _)
  · exact h

theorem rustLines_joinNL (ls : List Str) (h : ∀ l ∈ ls, '\n' ∉ l ∧ l ≠ []) :
    rustLines (joinNL ls) = mapExceptLast stripCR ls := by
  induction ls with
  | nil => rfl
  | cons l rest ih =>
    obtain ⟨hnl, hne⟩ := h l (List.mem_cons_self l rest)
    cases rest with
    | nil =>
      show rustLines l = [l]
      cases hl : l with
      | nil => exact absurd hl hne
      | cons x xs =>
        subst hl
        simp [rustLines, splitNL_no_nl _ hnl, lastSegment_some_cons]
    | cons l₂ ls' =>
      have hrest : ∀ l' ∈ l₂ :: ls', '\n' ∉ l' ∧ l' ≠ [] :=
        fun l' hl' => h l' (List.mem_cons_of_mem l hl')
      have hsplit : splitNL (l ++ '\n' :: joinNL (l₂ :: ls'))
          = l :: splitNL (joinNL (l₂ :: ls')) := splitNL_append l _ hnl
      obtain ⟨q, qs, hq⟩ : ∃ q qs, splitNL (joinNL (l₂ :: ls')) = q :: qs := by
        cases hqq : splitNL (joinNL (l₂ :: ls')) with
        | nil => exact absurd hqq (splitNL_ne_nil _)
        | cons q qs => exact ⟨q, qs, rfl⟩
      have key : rustLines (joinNL (l :: l₂ :: ls'))
          = stripCR l :: rustLines (joinNL (l₂ :: ls')) := by
        show rustLines (l ++ '\n' :: joinNL (l₂ :: ls')) = _
        simp only [rustLines, hsplit, hq, List.dropLast_cons₂,
          List.getLast?_cons_cons, List.map_cons, List.cons_append]
      rw [key, ih hrest]
      rfl

theorem mapExceptLast_eq_self (f : α → α) (ls : List α)
    (h : ∀ l ∈ ls, f l = l) : mapExceptLast f ls = ls := by
  induction ls with
  | nil => rfl
  | cons a rest ih =>
    cases rest with
    | nil => rfl
    | cons b rest' =>
      have := h a (List.mem_cons_self a _)
      simp only [mapExceptLast, this]
      exact congrArg _ (ih fun l hl => h l (List.mem_cons_of_mem a hl))

theorem mem_mapExceptLast (f : α → α) (ls : List α) (x : α)
    (h : x ∈ mapExceptLast f ls) : ∃ y ∈ ls, x = f y ∨ x = y := by
  induction ls with
  | nil => simp [mapExceptLast] at h
  | cons a rest ih =>
    cases rest with
    | nil =>
      simp only [mapExceptLast, List.mem_singleton] at h
      exact ⟨a, List.mem_cons_self a _, Or.inr h⟩
    | cons b rest' =>
      simp only [mapExceptLast] at h
      rcases List.mem_cons.mp h with h | h
      · exact ⟨a, List.mem_cons_self a _, Or.inl h⟩
      · obtain ⟨y, hy, hc⟩ := ih h
        exact ⟨y, List.mem_cons_of_mem a hy, hc⟩

theorem mem_rustLines (s : Str) (l : Str) (h : l ∈ rustLines s) :
    ∃ p ∈ splitNL s, l = stripCR p ∨ l = p := by
  unfold rustLines at h
  rcases List.mem_append.mp h with h | h
  · obtain ⟨p, hp, hpl⟩ := List.mem_map.mp h
    exact ⟨p, (List.dropLast_sublist _).subset hp, Or.inl hpl.symm⟩
  · have := mem_lastSegment _ _ h
    exact ⟨l, List.mem_of_mem_getLast? this, Or.inr rfl⟩

theorem no_nl_of_mem_rustLines (s : Str) (l : Str) (h : l ∈ rustLines s) :
    '\n' ∉ l := by
  obtain ⟨p, hp, hc⟩ := mem_rustLines s l h
  have hnp : '\n' ∉ p := mem_splitNL_no_nl s p hp
  rcases hc with rfl | rfl
  · exact no_nl_stripCR p hnp
  · exact hnp

/-- Claim C4 as stated is false: a source consisting of one prefixed line
followed by a trailing newline has all its lines prefixed, yet one
load-save cycle drops the trailing newline, so the source is not
reproduced byte for byte. -/
theorem save_load_roundtrip_cex :
    ((rustLines (str "otpauth://a\n")).all isOtpauthLine) = true ∧
    save_secrets (load_secrets (some (str "otpauth://a\n"))) ≠ str "otpauth://a\n" := by
  decide

/-- Claim C4 amended: a source that is the newline-join of lines each
beginning with the scheme prefix and free of newline and carriage-return
characters (in particular, with no trailing newline) is reproduced exactly
by one load-save cycle; and after one cycle every line of the saved text
begins with the prefix, so unprefixed lines are absent. -/
theorem save_load_roundtrip :
    (∀ ls : List Str, (∀ l ∈ ls, isOtpauthLine l = true ∧ '\n' ∉ l ∧ '\r' ∉ l) →
      save_secrets (load_secrets (some (joinNL ls))) = joinNL ls) ∧
    (∀ source l, l ∈ rustLines (save_secrets (load_secrets (some source))) →
      isOtpauthLine l = true) := by
  constructor
  · intro ls h
    have h1 : rustLines (joinNL ls) = mapExceptLast stripCR ls :=
      rustLines_joinNL ls fun l hl =>
        ⟨(h l hl).2.1, ne_nil_of_isOtpauth l (h l hl).1⟩
    have h2 : mapExceptLast stripCR ls = ls :=
      mapExceptLast_eq_self _ _ fun l hl => stripCR_of_no_cr l (h l hl).2.2
    have h3 : ls.filter isOtpauthLine = ls :=
      List.filter_eq_self.mpr fun l hl => (h l hl).1
    show joinNL (((rustLines (joinNL ls))).filter isOtpauthLine) = joinNL ls
    rw [h1, h2, h3]
  · intro source l hl
    have hkprops : ∀ k ∈ load_secrets (some source),
        isOtpauthLine k = true ∧ '\n' ∉ k ∧ k ≠ [] := by
      intro k hk
      have h1 : isOtpauthLine k = true := List.of_mem_filter hk
      have h2 : k ∈ rustLines source := List.mem_of_mem_filter hk
      exact ⟨h1, no_nl_of_mem_rustLines source k h2, ne_nil_of_isOtpauth k h1⟩
    have h1 : rustLines (save_secrets (load_secrets (some source)))
        = mapExceptLast stripCR (load_secrets (some source)) :=
      rustLines_joinNL _ fun k hk => ⟨(hkprops k hk).2.1, (hkprops k hk).2.2⟩
    rw [h1] at hl
    obtain ⟨k, hk, hc⟩ := mem_mapExceptLast _ _ _ hl
    rcases hc with rfl | rfl
    · exact isOtpauth_stripCR k (hkprops k hk).1
    · exact (hkprops _ hk).1

/-- Witness for `save_load_roundtrip` at a concrete two-line store. -/
theorem save_load_roundtrip_witness :
    save_secrets (load_secrets (some (joinNL [str "otpauth://a", str "otpauth://b"]))) =
      joinNL [str "otpauth://a", str "otpauth://b"] :=
  save_load_roundtrip.1 [str "otpauth://a", str "otpauth://b"] (by decide)

/-- Witness for `generate_rfc6238_vector` at the concrete descriptor of
the RFC test vector. -/
theorem generate_rfc6238_vector_witness :
    TOTP.generate
      { algorithm := Alg.SHA1, digits := 8, skew := 1, step := 30
        secret := (str "12345678901234567890").map Char.toNat
        issuer := some [], account_name := [] } 59 = str "94287082" :=
  generate_rfc6238_vector _ rfl rfl rfl (by decide)

/-! ### Query-scan lemmas -/

/-- One scan step, written field by field: the five recognized keys are
pairwise distinct strings, so exactly one field can change. -/
theorem scanStep_eq (st : ScanState) (kv : Str × Str) :
    scanStep st kv =
      { secret := if kv.1 = str "secret" then some kv.2 else st.secret
        issuer := if kv.1 = str "issuer" then some kv.2 else st.issuer
        algorithm := if kv.1 = str "algorithm" then algoOfValue kv.2 else st.algorithm
        digits := if kv.1 = str "digits" then (parseRustNum (2 ^ 32) kv.2).getD 6
          else st.digits
        period := if kv.1 = str "period" then (parseRustNum (2 ^ 64) kv.2).getD 30
          else st.period } := by
  unfold scanStep
  by_cases h1 : kv.1 = str "secret"
  · simp [h1, (by decide : (str "secret" = str "issuer") = False),
      (by decide : (str "secret" = str "algorithm") = False),
      (by decide : (str "secret" = str "digits") = False),
      (by decide : (str "secret" = str "period") = False)]
  by_cases h2 : kv.1 = str "issuer"
  · simp [h2, (by decide : (str "issuer" = str "secret") = False),
      (by decide : (str "issuer" = str "algorithm") = False),
      (by decide : (str "issuer" = str "digits") = False),
      (by decide : (str "issuer" = str "period") = False)]
  by_cases h3 : kv.1 = str "algorithm"
  · simp [h3, (by decide : (str "algorithm" = str "secret") = False),
      (by decide : (str "algorithm" = str "issuer") = False),
      (by decide : (str "algorithm" = str "digits") = False),
      (by decide : (str "algorithm" = str "period") = False)]
  by_cases h4 : kv.1 = str "digits"
  · simp [h4, (by decide : (str "digits" = str "secret") = False),
      (by decide : (str "digits" = str "issuer") = False),
      (by decide : (str "digits" = str "algorithm") = False),
      (by decide : (str "digits" = str "period") = False)]
  by_cases h5 : kv.1 = str "period"
  · simp [h5, (by decide : (str "period" = str "secret") = False),
      (by decide : (str "period" = str "issuer") = False),
      (by decide : (str "period" = str "algorithm") = False),
      (by decide : (str "period" = str "digits") = False)]
  · simp [h1, h2, h3, h4, h5]

theorem scanStep_secret (st : ScanState) (kv : Str × Str) :
    (scanStep st kv).secret =
      if kv.1 = str "secret" then some kv.2 else st.secret := by
  rw [scanStep_eq]

theorem scanStep_issuer (st : ScanState) (kv : Str × Str) :
    (scanStep st kv).issuer =
      if kv.1 = str "issuer" then some kv.2 else st.issuer := by
  rw [scanStep_eq]

theorem scanStep_algorithm (st : ScanState) (kv : Str × Str) :
    (scanStep st kv).algorithm =
      if kv.1 = str "algorithm" then algoOfValue kv.2 else st.algorithm := by
  rw [scanStep_eq]

theorem scanStep_digits (st : ScanState) (kv : Str × Str) :
    (scanStep st kv).digits =
      if kv.1 = str "digits" then (parseRustNum (2 ^ 32) kv.2).getD 6 else st.digits := by
  rw [scanStep_eq]

theorem scanStep_period (st : ScanState) (kv : Str × Str) :
    (scanStep st kv).period =
      if kv.1 = str "period" then (parseRustNum (2 ^ 64) kv.2).getD 30 else st.period := by
  rw [scanStep_eq]

/-- The query-parameter loop resolves every recognized key to its last
occurrence: each later occurrence overwrites the earlier one, so the final
state is determined by `lastParam` of each key, with the initial state as
fallback. -/
theorem foldl_scanStep (pairs : List (Str × Str)) (st : ScanState) :
    pairs.foldl scanStep st =
      { secret := lastOr st.secret some (lastParam (str "secret") pairs)
        issuer := lastOr st.issuer some (lastParam (str "issuer") pairs)
        algorithm := lastOr st.algorithm algoOfValue (lastParam (str "algorithm") pairs)
        digits := lastOr st.digits (fun v => (parseRustNum (2 ^ 32) v).getD 6)
          (lastParam (str "digits") pairs)
        period := lastOr st.period (fun v => (parseRustNum (2 ^ 64) v).getD 30)
          (lastParam (str "period") pairs) } := by
  induction pairs generalizing st with
  | nil => rfl
  | cons kv rest ih =>
    rw [List.foldl_cons, ih (scanStep st kv)]
    simp only [ScanState.mk.injEq]
    refine ⟨?_, ?_, ?_, ?_, ?_⟩
    · cases hr : lastParam (str "secret") rest with
      | some v => simp [lastParam, hr, lastOr]
      | none =>
        simp only [lastParam, hr, lastOr, scanStep_secret]
        by_cases hk : kv.1 = str "secret" <;> simp [hk, lastOr]
    · cases hr : lastParam (str "issuer") rest with
      | some v => simp [lastParam, hr, lastOr]
      | none =>
        simp only [lastParam, hr, lastOr, scanStep_issuer]
        by_cases hk : kv.1 = str "issuer" <;> simp [hk, lastOr]
    · cases hr : lastParam (str "algorithm") rest with
      | some v => simp [lastParam, hr, lastOr]
      | none =>
        simp only [lastParam, hr, lastOr, scanStep_algorithm]
        by_cases hk : kv.1 = str "algorithm" <;> simp [hk, lastOr]
    · cases hr : lastParam (str "digits") rest with
      | some v => simp [lastParam, hr, lastOr]
      | none =>
        simp only [lastParam, hr, lastOr, scanStep_digits]
        by_cases hk : kv.1 = str "digits" <;> simp [hk, lastOr]
    · cases hr : lastParam (str "period") rest with
      | some v => simp [lastParam, hr, lastOr]
      | none =>
        simp only [lastParam, hr, lastOr, scanStep_period]
        by_cases hk : kv.1 = str "period" <;> simp [hk, lastOr]

theorem getD_lastOr_opt (b : Option Str) (o : Option Str) :
    (lastOr b some o).getD [] = lastOr (b.getD []) id o := by
  cases o <;> rfl

theorem lastOr_opt_id (o : Option Str) : lastOr (none : Option Str) some o = o := by
  cases o <;> rfl

/-- Full characterization of `parse_totp` on a parsed URL, in terms of the
decoded label, the last occurrence of each recognized query key and the
base32 decoding of the secret. -/
theorem parse_totp_some (u : ParsedUrl) :
    parse_totp (some u) =
      match urlencodingDecode (trimSlash (trimTotp u.path)) with
      | none => none
      | some label =>
        match lastParam (str "secret") u.queryPairs with
        | none => none
        | some sec =>
          match b32decode (asciiUpper sec) with
          | none => none
          | some bytes =>
            some ((labelParts label).2, issuerRes label u.queryPairs,
              { algorithm := lastOr Alg.SHA1 algoOfValue
                  (lastParam (str "algorithm") u.queryPairs)
                digits := lastOr 6 (fun v => (parseRustNum (2 ^ 32) v).getD 6)
                  (lastParam (str "digits") u.queryPairs)
                skew := 1
                step := lastOr 30 (fun v => (parseRustNum (2 ^ 64) v).getD 30)
                  (lastParam (str "period") u.queryPairs)
                secret := bytes
                issuer := some (issuerRes label u.queryPairs)
                account_name := (labelParts label).2 }) := by
  simp only [parse_totp]
  cases hd : urlencodingDecode (trimSlash (trimTotp u.path)) with
  | none => rfl
  | some label =>
    simp only [foldl_scanStep, lastOr_opt_id]
    cases hs : lastParam (str "secret") u.queryPairs with
    | none => rfl
    | some sec =>
      dsimp only
      cases hb : b32decode (asciiUpper sec) with
      | none => rfl
      | some bytes =>
        simp only [issuerRes, getD_lastOr_opt]

/-- Claim C2: a parsed URL is skipped exactly when its label fails
percent-decoding, or no `secret` query parameter is supplied, or the
upper-cased secret fails base32 decoding; a URL that fails to parse at all
is also skipped. Malformed `algorithm`, `digits` or `period` values are
absent from the condition: they never cause a skip, falling back to their
defaults. -/
theorem parse_totp_skip_iff :
    parse_totp none = none ∧
    ∀ u : ParsedUrl,
      (parse_totp (some u) = none ↔
        urlencodingDecode (trimSlash (trimTotp u.path)) = none ∨
        lastParam (str "secret") u.queryPairs = none ∨
        ∃ s, lastParam (str "secret") u.queryPairs = some s ∧
          b32decode (asciiUpper s) = none) := by
  refine ⟨rfl, fun u => ?_⟩
  rw [parse_totp_some]
  cases hd : urlencodingDecode (trimSlash (trimTotp u.path)) with
  | none => simp
  | some label =>
    cases hs : lastParam (str "secret") u.queryPairs with
    | none => simp
    | some sec =>
      cases hb : b32decode (asciiUpper sec) with
      | none => simp [hb]
      | some bytes => simp [hb]

/-- Witness for `parse_totp_skip_iff`: a URL with no query at all is
skipped because no secret is supplied. -/
theorem parse_totp_skip_iff_witness :
    parse_totp (some ⟨str "otpauth", str "/totp/Name", []⟩) = none :=
  (parse_totp_skip_iff.2 ⟨str "otpauth", str "/totp/Name", []⟩).mpr
    (Or.inr (Or.inl (by decide)))

/-- Claim C7: the reported issuer is the last `issuer` query value when
one is present, else the part of the decoded label before its first colon
when there is one, else empty; and on the spec's example URL the query
issuer `Example` wins with account `alice@example.com`. -/
theorem parse_totp_issuer_rule :
    (∀ u acc iss t, parse_totp (some u) = some (acc, iss, t) →
      iss = lastOr ((labelIssuerOf u).getD []) id
        (lastParam (str "issuer") u.queryPairs)) ∧
    parse_totp (some ⟨str "otpauth", str "/totp/Example:alice@example.com",
        [(str "secret", str "JBSWY3DPEHPK3PXP"), (str "issuer", str "Example")]⟩) =
      some (str "alice@example.com", str "Example",
        { algorithm := Alg.SHA1, digits := 6, skew := 1, step := 30
          secret := [72, 101, 108, 108, 111, 33, 222, 173, 190, 239]
          issuer := some (str "Example"), account_name := str "alice@example.com" }) := by
  constructor
  · intro u acc iss t h
    rw [parse_totp_some] at h
    cases hd : urlencodingDecode (trimSlash (trimTotp u.path)) with
    | none => simp [hd] at h
    | some label =>
      cases hs : lastParam (str "secret") u.queryPairs with
      | none => simp [hd, hs] at h
      | some sec =>
        cases hb : b32decode (asciiUpper sec) with
        | none => simp [hd, hs, hb] at h
        | some bytes =>
          simp only [hd, hs, hb, Option.some.injEq, Prod.mk.injEq] at h
          rw [← h.2.1]
          unfold issuerRes labelIssuerOf
          rw [hd]
          rfl
  · decide

/-- Witness for `parse_totp_issuer_rule` at the spec's example URL. -/
theorem parse_totp_issuer_rule_witness :
    str "Example" = lastOr
      ((labelIssuerOf ⟨str "otpauth", str "/totp/Example:alice@example.com",
          [(str "secret", str "JBSWY3DPEHPK3PXP"), (str "issuer", str "Example")]⟩).getD [])
      id (lastParam (str "issuer")
        [(str "secret", str "JBSWY3DPEHPK3PXP"), (str "issuer", str "Example")]) :=
  parse_totp_issuer_rule.1
    ⟨str "otpauth", str "/totp/Example:alice@example.com",
      [(str "secret", str "JBSWY3DPEHPK3PXP"), (str "issuer", str "Example")]⟩
    (str "alice@example.com") (str "Example")
    { algorithm := Alg.SHA1, digits := 6, skew := 1, step := 30
      secret := [72, 101, 108, 108, 111, 33, 222, 173, 190, 239]
      issuer := some (str "Example"), account_name := str "alice@example.com" }
    (by decide)

/-- Claim C9: whenever a recognized query key occurs several times, the
descriptor is built from the last occurrence: the secret bytes come from
the last `secret` value, and digits, period, algorithm and issuer are each
resolved from the last occurrence of their key, with the defaults as
fallback. -/
theorem parse_totp_last_occurrence :
    ∀ u acc iss t, parse_totp (some u) = some (acc, iss, t) →
      (∃ s, lastParam (str "secret") u.queryPairs = some s ∧
        b32decode (asciiUpper s) = some t.secret) ∧
      t.digits = lastOr 6 (fun v => (parseRustNum (2 ^ 32) v).getD 6)
        (lastParam (str "digits") u.queryPairs) ∧
      t.step = lastOr 30 (fun v => (parseRustNum (2 ^ 64) v).getD 30)
        (lastParam (str "period") u.queryPairs) ∧
      t.algorithm = lastOr Alg.SHA1 algoOfValue (lastParam (str "algorithm") u.queryPairs) ∧
      iss = lastOr ((labelIssuerOf u).getD []) id
        (lastParam (str "issuer") u.queryPairs) := by
  intro u acc iss t h
  rw [parse_totp_some] at h
  cases hd : urlencodingDecode (trimSlash (trimTotp u.path)) with
  | none => simp [hd] at h
  | some label =>
    cases hs : lastParam (str "secret") u.queryPairs with
    | none => simp [hd, hs] at h
    | some sec =>
      cases hb : b32decode (asciiUpper sec) with
      | none => simp [hd, hs, hb] at h
      | some bytes =>
        simp only [hd, hs, hb, Option.some.injEq, Prod.mk.injEq] at h
        obtain ⟨h1, h2, h3⟩ := h
        subst h3
        refine ⟨⟨sec, rfl, hb⟩, rfl, rfl, rfl, ?_⟩
        rw [← h2]
        unfold issuerRes labelIssuerOf
        rw [hd]
        rfl

/-- Witness for `parse_totp_last_occurrence`: with every recognized key
duplicated, the descriptor digits come from the later `digits` value. -/
theorem parse_totp_last_occurrence_witness :
    ({ algorithm := Alg.SHA256, digits := 8, skew := 1, step := 60
       secret := [72, 101, 108, 108, 111, 33, 222, 173, 190, 239]
       issuer := some (str "B"), account_name := str "Acc" } : TOTP).digits =
      lastOr 6 (fun v => (parseRustNum (2 ^ 32) v).getD 6)
        (lastParam (str "digits")
          [(str "digits", str "7"), (str "digits", str "8"), (str "secret", str "AA"),
           (str "secret", str "JBSWY3DPEHPK3PXP"), (str "period", str "60"),
           (str "algorithm", str "sha256"), (str "issuer", str "A"),
           (str "issuer", str "B")]) :=
  (parse_totp_last_occurrence
    ⟨str "otpauth", str "/totp/Acc",
      [(str "digits", str "7"), (str "digits", str "8"), (str "secret", str "AA"),
       (str "secret", str "JBSWY3DPEHPK3PXP"), (str "period", str "60"),
       (str "algorithm", str "sha256"), (str "issuer", str "A"), (str "issuer", str "B")]⟩
    (str "Acc") (str "B")
    { algorithm := Alg.SHA256, digits := 8, skew := 1, step := 60
      secret := [72, 101, 108, 108, 111, 33, 222, 173, 190, 239]
      issuer := some (str "B"), account_name := str "Acc" }
    (by decide)).2.1

/-- Claim C10 as stated is false: a well-formed URL whose `secret` query
value is valid base32 can still be skipped, because the path `/%FF`
percent-decodes to a byte that is not valid UTF-8 and label decoding
fails. -/
theorem parse_totp_path_decode_cex :
    parse_totp (some ⟨str "http", str "/%FF",
      [(str "secret", str "JBSWY3DPEHPK3PXP")]⟩) = none := by decide

/-- Claim C10 amended: `parse_totp` never validates the URL scheme or
requires a `/totp/` path segment — for every parsed URL whose path
percent-decodes successfully and which carries a `secret` query parameter
whose upper-cased value is valid no-padding base32, a descriptor is
returned, whatever the scheme and path; and the result is entirely
independent of the scheme. -/
theorem parse_totp_no_scheme_check :
    (∀ u : ParsedUrl, ∀ label s bytes,
      urlencodingDecode (trimSlash (trimTotp u.path)) = some label →
      lastParam (str "secret") u.queryPairs = some s →
      b32decode (asciiUpper s) = some bytes →
      parse_totp (some u) ≠ none) ∧
    (∀ u : ParsedUrl, ∀ sch : Str,
      parse_totp (some { u with scheme := sch }) = parse_totp (some u)) := by
  constructor
  · intro u label s bytes hd hs hb
    rw [parse_totp_some, hd, hs]
    dsimp only
    rw [hb]
    simp
  · intro u sch
    rfl

/-- Witness for `parse_totp_no_scheme_check`: an `http` URL with a
non-totp path and a lower-case secret still yields a descriptor. -/
theorem parse_totp_no_scheme_check_witness :
    parse_totp (some ⟨str "http", str "/x/y",
      [(str "secret", str "jbswy3dpehpk3pxp")]⟩) ≠ none :=
  parse_totp_no_scheme_check.1
    ⟨str "http", str "/x/y", [(str "secret", str "jbswy3dpehpk3pxp")]⟩
    (str "x/y") (str "jbswy3dpehpk3pxp")
    [72, 101, 108, 108, 111, 33, 222, 173, 190, 239]
    (by decide) (by decide) (by decide)

end AuthTui

